import Mathlib

/-!
# Verification of the Minimongo `Sorter`

A shallow embedding of `sorter.js` (`Minimongo.Sorter`): the sort-spec
compiler, the per-document key extractor (`_generateKeysFromDoc`), the
minimum-key selection (`_getMinKeyFromDoc`), the key comparator
(`_compareKeys` / `_keyFieldComparator` / `composeComparators`), the
document comparator (`_getBaseComparator`) and the distance tie-break
(`getComparator`).

JavaScript `throw` is embedded as `Except SortError`; documents and
spec inputs are embedded as inductive JSON-like values.  The external
collaborators (`makeLookupFunction` / `expandArraysInBranches` and
`LocalCollection._f._cmp`) are not part of this file's source and are
modelled from the specification where concrete instances are needed;
the comparator-structure theorems are generic in the value comparator.
-/

namespace Sorter

/-- A document value: the JSON-like universe the sorter's documents live in
(numbers are modelled as integers; this suffices for every ordering fact
proved here, which never depends on non-integer numerics). -/
inductive Val where
  | vnull
  | vnum (n : Int)
  | vstr (s : String)
  | vbool (b : Bool)
  | varr (xs : List Val)
  | vobj (fs : List (String × Val))

/-- Type rank used by the modelled value comparator's cross-type ordering
(null < numbers < strings < objects < arrays < booleans). -/
def rankOf : Val → Int
  | .vnull => 0
  | .vnum _ => 1
  | .vstr _ => 2
  | .vobj _ => 3
  | .varr _ => 4
  | .vbool _ => 5

mutual

/-- Modelled from the spec: the external Value Comparator
(`LocalCollection._f._cmp`), "a total, deterministic cross-type ordering"
(§6).  Different type ranks compare by rank; numbers by difference,
strings and booleans by their natural order, arrays lexicographically and
documents field-by-field.  Every claim below that fixes the comparator
only exercises it on integers and `null`. -/
def cmpVal : Val → Val → Int
  | .vnull, .vnull => 0
  | .vnum a, .vnum b => a - b
  | .vstr a, .vstr b => if a < b then -1 else if b < a then 1 else 0
  | .vbool a, .vbool b => (if a then 1 else 0) - (if b then 1 else 0)
  | .varr xs, .varr ys => cmpList xs ys
  | .vobj fs, .vobj gs => cmpFields fs gs
  | a, b => rankOf a - rankOf b

/-- Lexicographic comparison of value sequences (shorter prefix first). -/
def cmpList : List Val → List Val → Int
  | [], [] => 0
  | [], _ :: _ => -1
  | _ :: _, [] => 1
  | x :: xs, y :: ys =>
    let c := cmpVal x y
    if c = 0 then cmpList xs ys else c

/-- Field-by-field comparison of documents (key, then value, then rest). -/
def cmpFields : List (String × Val) → List (String × Val) → Int
  | [], [] => 0
  | [], _ :: _ => -1
  | _ :: _, [] => 1
  | (k1, v1) :: fs, (k2, v2) :: gs =>
    if k1 < k2 then -1
    else if k2 < k1 then 1
    else
      let c := cmpVal v1 v2
      if c = 0 then cmpFields fs gs else c

end

/-- Every failure the sorter can raise.  The JavaScript source throws
bare `Error`s; each constructor names one of its throw sites (the names
follow the specification's error table). -/
inductive SortError where
  /-- "sort keys must be non-empty", "unsupported sort key: …" and
  "Bad sort specification: …" in the constructor. -/
  | invalidSpec
  /-- A JavaScript `TypeError` raised before any sorter check runs
  (e.g. `path.charAt` on a number, or indexing into `null`). -/
  | typeError
  /-- "can't generate keys without a spec" in `_generateKeysFromDoc`. -/
  | emptySpec
  /-- "multiple branches but no array used?" -/
  | inconsistentBranches
  /-- "duplicate path: …" -/
  | duplicatePath
  /-- "cannot index parallel arrays" (both throw sites). -/
  | parallelArrayMismatch
  /-- "no value in sole key case?" -/
  | noValueInSoleKey
  /-- "missing path?" -/
  | missingPath
  /-- "Key has wrong length" in `_compareKeys`. -/
  | keyLengthMismatch
  /-- "sort selector found no keys in doc?" in `_getMinKeyFromDoc`. -/
  | noKeysFound
  /-- "Missing distance for …" in `getComparator`. -/
  | missingDistance
  deriving Repr, DecidableEq

/-- One compiled sort-spec part: `{path, ascending}` (the `lookup`
closure the source also stores is a pure function of `path`, recomputed
here on demand — the spec is immutable after compilation, so this is
observationally identical). -/
structure SpecPart where
  path : String
  ascending : Bool
  deriving Repr, DecidableEq

instance : Inhabited SpecPart := ⟨⟨"", true⟩⟩

/-- One branch produced by path lookup: a value, optionally tagged with
the array-index path traversed to reach it (`arrayIndices`). -/
structure Branch where
  value : Val
  arrayIndices : Option (List Nat)

/-- Field access in a document object (JavaScript property read; document
literals have distinct keys, so first match suffices). -/
def getField : List (String × Val) → String → Option Val
  | [], _ => none
  | (k, v) :: rest, s => if k = s then some v else getField rest s

/-- Splits a dotted path into its segments (`"a.x"` ↦ `["a", "x"]`). -/
def splitPathAux (cur : List Char) (acc : List String) : List Char → List String
  | [] => acc ++ [String.mk cur.reverse]
  | c :: rest =>
    if c = '.' then splitPathAux [] (acc ++ [String.mk cur.reverse]) rest
    else splitPathAux (c :: cur) acc rest

/-- Segments of a dotted field path. -/
def splitPath (p : String) : List String := splitPathAux [] [] p.toList

/-- Modelled from the spec: one array-expansion step of the Path Lookup
collaborator — a branch whose value is an array becomes one branch per
element, each extending the array-index path with that element's
position; a non-array branch passes through ("its elements become
separate branches, never the array object itself", §6). -/
def expandOne (b : Branch) : List Branch :=
  match b.value with
  | .varr xs => xs.enum.map fun p => ⟨p.2, some (b.arrayIndices.getD [] ++ [p.1])⟩
  | _ => [b]

/-- Modelled from the spec: one path-segment step of Path Lookup — expand
arrays reached so far, then read the segment's field from each object
branch (non-objects yield no branch). -/
def stepField (s : String) (b : Branch) : List Branch :=
  (expandOne b).filterMap fun b' =>
    match b'.value with
    | .vobj fs => (getField fs s).map fun v => ⟨v, b'.arrayIndices⟩
    | _ => none

/-- Modelled from the spec: walks the remaining path segments over the
current branch set, expanding terminal arrays at the end (§6's Path
Lookup contract combined with 4.2 step 1's arrays-as-leaves expansion,
i.e. `expandArraysInBranches(spec.lookup(doc), true)`). -/
def lookupSegs : List String → List Branch → List Branch
  | [], bs => bs.flatMap expandOne
  | s :: rest, bs => lookupSegs rest (bs.flatMap (stepField s))

/-- Modelled from the spec: the pre-bound per-part lookup
(`makeLookupFunction(path)` applied to a document, then
`expandArraysInBranches(·, true)`): every reachable value for the dotted
path, with the exact array indices traversed. -/
def lookupBranches (doc : Val) (path : String) : List Branch :=
  lookupSegs (splitPath path) [⟨doc, none⟩]

/-! ## Sort-spec compilation (the `Minimongo.Sorter` constructor) -/

/-- An atomic JavaScript value appearing inside an array-shaped spec item
(a path position or a direction position). -/
inductive JsAtom where
  | astr (s : String)
  | anum (n : Int)
  | anull
  deriving Repr, DecidableEq

/-- One element of an array-shaped sort spec: a bare string, a nested
array (`[path, direction, …]`), a number, or `null`. -/
inductive SpecItem where
  | str (s : String)
  | arrI (elems : List JsAtom)
  | num (n : Int)
  | nul
  deriving Repr, DecidableEq

/-- The sort-spec argument of the `Minimongo.Sorter` constructor, split
by the constructor's own dynamic dispatch: an `Array`, any other value
with `typeof … === "object"` (a plain object, whose sort weights are
numeric, or `null` — `typeof null` is `"object"`), or a primitive of any
other `typeof` (string, number, boolean, `undefined`, function). -/
inductive SortSpecInput where
  | arr (items : List SpecItem)
  | obj (entries : List (String × Int))
  | null
  | prim
  deriving Repr, DecidableEq

/-- The sequential fallible loop shape shared by the constructor's item
loops and the key-vector builders: apply `f` to each element in order,
collecting results, propagating the first thrown error (exactly the
JavaScript `for`/`_.each` + `throw` control flow). -/
def mapE {α β : Type} (f : α → Except SortError β) :
    List α → Except SortError (List β)
  | [] => .ok []
  | x :: xs =>
    match f x with
    | .error e => .error e
    | .ok y =>
      match mapE f xs with
      | .error e => .error e
      | .ok ys => .ok (y :: ys)

/-- Whether a string's first character is the reserved operator marker
(`path.charAt(0) === '$'`). -/
def startsWithDollar (s : String) : Bool :=
  match s.toList with
  | '$' :: _ => true
  | _ => false

/-- The constructor's `addSpecPart` helper.  The path argument is the raw
JavaScript value found at the item's path position (`none` =
`undefined`): `!path` rejects `undefined`, `null`, `0` and `""` with
"sort keys must be non-empty"; a `'$'`-prefixed string is rejected with
"unsupported sort key"; a truthy non-string has no `charAt` method, so
JavaScript raises a `TypeError` before the sorter's own checks. -/
def addSpecPart (path : Option JsAtom) (ascending : Bool) :
    Except SortError SpecPart :=
  match path with
  | none => .error .invalidSpec
  | some .anull => .error .invalidSpec
  | some (.anum n) => if n = 0 then .error .invalidSpec else .error .typeError
  | some (.astr s) =>
    if s = "" then .error .invalidSpec
    else if startsWithDollar s then .error .invalidSpec
    else .ok ⟨s, ascending⟩

/-- One iteration of the constructor's array branch: a string item is an
ascending part; otherwise the item is indexed — `item[0]` is the path and
the part is ascending iff `item[1] !== "desc"` (indexing a number gives
`undefined`; indexing `null` raises a `TypeError`). -/
def compileItem : SpecItem → Except SortError SpecPart
  | .str s => addSpecPart (some (.astr s)) true
  | .arrI elems =>
    addSpecPart elems.head? (decide (elems.get? 1 ≠ some (.astr "desc")))
  | .num _ => addSpecPart none true
  | .nul => .error .typeError

/-- The `Minimongo.Sorter` constructor: compiles a spec input into the
ordered list `_sortSpecParts`, short-circuiting at the first failing
part exactly as the JavaScript `throw` does.  An array dispatches to the
item loop; a non-array object iterates its entries in insertion order
with `value >= 0` as the direction (`_.each` of `null` iterates
nothing); any other value throws "Bad sort specification". -/
def mkSorter : SortSpecInput → Except SortError (List SpecPart)
  | .arr items => mapE compileItem items
  | .obj entries => mapE (fun e => addSpecPart (some (.astr e.1)) (decide (e.2 ≥ 0))) entries
  | .null => .ok []
  | .prim => .error .invalidSpec

/-! ## Key extraction (`_generateKeysFromDoc`) -/

/-- The `pathFromIndices` helper: the canonical path key of an array-index path,
`indices.join(',') + ','`. -/
def pathFromIndices (indices : List Nat) : String :=
  String.intercalate "," (indices.map Nat.repr) ++ ","

/-- Embeds `_.has` on the per-field `{path -> value}` record: whether an
association list carries a given key. -/
def hasKey (m : List (String × Val)) (k : String) : Bool :=
  m.any fun e => e.1 = k

/-- Reads a key from the per-field `{path -> value}` record. -/
def lookupKey : List (String × Val) → String → Option Val
  | [], _ => none
  | (k, v) :: rest, s => if k = s then some v else lookupKey rest s

/-- The branches `_generateKeysFromDoc` walks for one spec part: the
expanded lookup result, or the single synthetic `{value: null}` branch
when the lookup finds nothing ("If there are no values for a key …
pretend we found one null value"). -/
def branchesForPart (doc : Val) (part : SpecPart) : List Branch :=
  let bs := lookupBranches doc part.path
  if bs.isEmpty then [⟨.vnull, none⟩] else bs

/-- The inner branch loop of `_generateKeysFromDoc` for one spec part:
builds the field's `{'' -> value}` or `{path -> value}` record `m` and
the `usedPaths` flag.  `branchCount` is the (fixed) total number of
branches: a branch without array indices with more than one branch
present throws "multiple branches but no array used?"; an indexed
branch's path key first fails on collision ("duplicate path"), then on
absence from the previously established `knownPaths` ("cannot index
parallel arrays"). -/
def processBranches (kp : Option (List String)) (branchCount : Nat) :
    List Branch → List (String × Val) → Bool →
    Except SortError (List (String × Val) × Bool)
  | [], m, used => .ok (m, used)
  | b :: rest, m, used =>
    match b.arrayIndices with
    | none =>
      if branchCount > 1 then .error .inconsistentBranches
      else processBranches kp branchCount rest (m ++ [("", b.value)]) used
    | some idxs =>
      let path := pathFromIndices idxs
      if hasKey m path then .error .duplicatePath
      else
        match kp with
        | some ks =>
          if ks.contains path then
            processBranches kp branchCount rest (m ++ [(path, b.value)]) true
          else .error .parallelArrayMismatch
        | none => processBranches kp branchCount rest (m ++ [(path, b.value)]) true

/-- The accumulating state of `_generateKeysFromDoc`'s field loop:
`valuesByIndexAndPath` (one record per processed part, in order) and
`knownPaths` (the path-key set established by the first array-using
part, `none` until then; modelled as a list in insertion order, matching
the JavaScript object's key order). -/
structure GenAcc where
  values : List (List (String × Val))
  knownPaths : Option (List String)

/-- One iteration of `_generateKeysFromDoc`'s `_.each` over the spec
parts: run the branch loop, then either check this part's record against
the established `knownPaths` (a part that is not the unindexed `''` case
must carry exactly as many path keys — "cannot index parallel arrays"),
or establish `knownPaths` from this part's keys if it used paths. -/
def processField (doc : Val) (acc : GenAcc) (part : SpecPart) :
    Except SortError GenAcc :=
  let branches := branchesForPart doc part
  match processBranches acc.knownPaths branches.length branches [] false with
  | .error e => .error e
  | .ok r =>
    match acc.knownPaths with
    | some ks =>
      if ¬ hasKey r.1 "" ∧ ks.length ≠ r.1.length then .error .parallelArrayMismatch
      else .ok ⟨acc.values ++ [r.1], acc.knownPaths⟩
    | none =>
      if r.2 then .ok ⟨acc.values ++ [r.1], some (r.1.map Prod.fst)⟩
      else .ok ⟨acc.values ++ [r.1], none⟩

/-- The field loop of `_generateKeysFromDoc` over all spec parts. -/
def processParts (doc : Val) : List SpecPart → GenAcc → Except SortError GenAcc
  | [], acc => .ok acc
  | p :: rest, acc =>
    match processField doc acc p with
    | .error e => .error e
    | .ok acc2 => processParts doc rest acc2

/-- The `_generateKeysFromDoc` method: the ordered list of candidate key vectors the
JavaScript version feeds to its callback (the callback protocol is
modelled by materialising the list; the callbacks used by the source
never throw before a generation error would, so the surfaced
`Except` value is identical).  With no spec parts it throws "can't
generate keys without a spec".  With no array use anywhere, the sole key
takes each part's unindexed value ("no value in sole key case?" guards a
missing one); otherwise one key per known path key, each part
contributing its unindexed value if present, else its value at that path
key ("missing path?" if absent). -/
def generateKeysFromDoc (parts : List SpecPart) (doc : Val) :
    Except SortError (List (List Val)) :=
  if parts.isEmpty then .error .emptySpec
  else
    match processParts doc parts ⟨[], none⟩ with
    | .error e => .error e
    | .ok acc =>
      match acc.knownPaths with
      | none =>
        match mapE (fun m =>
          match lookupKey m "" with
          | some v => Except.ok v
          | none => Except.error SortError.noValueInSoleKey) acc.values with
        | .error e => .error e
        | .ok key => .ok [key]
      | some ks =>
        mapE (fun path =>
          mapE (fun m =>
            match lookupKey m "" with
            | some v => Except.ok v
            | none =>
              match lookupKey m path with
              | some v => Except.ok v
              | none => Except.error SortError.missingPath) acc.values) ks

/-! ## Key comparison (`composeComparators`, `_keyFieldComparator`,
`_compareKeys`) -/

/-- The `composeComparators` utility applied to pure comparators (the key-comparator
use: per-field key comparators never throw): evaluates each comparator
in order and returns the first non-zero result, else `0`. -/
def composeComparators {α : Type} : List (α → α → Int) → α → α → Int
  | [], _, _ => 0
  | c :: rest, a, b =>
    let compare := c a b
    if compare ≠ 0 then compare else composeComparators rest a b

/-- The `composeComparators` utility applied to throwing comparators (the distance
tie-break use): a thrown error propagates, otherwise the first non-zero
result wins. -/
def composeComparatorsM {α : Type} :
    List (α → α → Except SortError Int) → α → α → Except SortError Int
  | [], _, _ => .ok 0
  | c :: rest, a, b =>
    match c a b with
    | .error e => .error e
    | .ok compare =>
      if compare ≠ 0 then .ok compare else composeComparatorsM rest a b

/-- The `_keyFieldComparator(i)` method: compares two key vectors on field `i` with
the value comparator, negating the result when part `i` is descending
(out-of-range reads are JavaScript `undefined`; they never occur behind
`_compareKeys`' length guard, and are defaulted harmlessly here). -/
def keyFieldComparator (parts : List SpecPart) (cmp : Val → Val → Int)
    (i : Nat) : List Val → List Val → Int :=
  fun key1 key2 =>
    let invert := !(parts.getD i default).ascending
    let compare := cmp (key1.getD i .vnull) (key2.getD i .vnull)
    if invert then -compare else compare

/-- The `_keyComparator` field, built in the constructor as the composition of the
per-field comparators in spec order (recomputed on demand here — the
parts are immutable, so this is the same function the constructor would
have stored). -/
def keyComparator (parts : List SpecPart) (cmp : Val → Val → Int) :
    List Val → List Val → Int :=
  composeComparators ((List.range parts.length).map (keyFieldComparator parts cmp))

/-- The `_compareKeys` method: guards that both key vectors have exactly one entry
per spec part ("Key has wrong length"), then applies `_keyComparator`. -/
def compareKeys (parts : List SpecPart) (cmp : Val → Val → Int)
    (key1 key2 : List Val) : Except SortError Int :=
  if key1.length ≠ parts.length ∨ key2.length ≠ parts.length then
    .error .keyLengthMismatch
  else .ok (keyComparator parts cmp key1 key2)

/-! ## Document comparison (`_getMinKeyFromDoc`, `_getBaseComparator`,
`getComparator`) -/

/-- The minimum-tracking callback of `_getMinKeyFromDoc`, folded over the
generated keys: the first key seeds the minimum; each later key replaces
it exactly when the full signed key comparator says it is smaller. -/
def findMinKey (parts : List SpecPart) (cmp : Val → Val → Int) :
    List (List Val) → Option (List Val) → Except SortError (Option (List Val))
  | [], acc => .ok acc
  | key :: rest, acc =>
    match acc with
    | none => findMinKey parts cmp rest (some key)
    | some minKey =>
      match compareKeys parts cmp key minKey with
      | .error e => .error e
      | .ok c => findMinKey parts cmp rest (some (if c < 0 then key else minKey))

/-- The `_getMinKeyFromDoc` method: the lexicographically minimal candidate key
vector of a document under the full signed key comparator ("sort
selector found no keys in doc?" if no candidate exists). -/
def getMinKeyFromDoc (parts : List SpecPart) (cmp : Val → Val → Int)
    (doc : Val) : Except SortError (List Val) :=
  match generateKeysFromDoc parts doc with
  | .error e => .error e
  | .ok keys =>
    match findMinKey parts cmp keys none with
    | .error e => .error e
    | .ok none => .error .noKeysFound
    | .ok (some minKey) => .ok minKey

/-- The `_getBaseComparator` method: with no spec parts, everything is equal;
otherwise compare the two documents' minimum key vectors with
`_compareKeys`. -/
def getBaseComparator (parts : List SpecPart) (cmp : Val → Val → Int) :
    Val → Val → Except SortError Int :=
  if parts.isEmpty then fun _ _ => .ok 0
  else fun doc1 doc2 =>
    match getMinKeyFromDoc parts cmp doc1 with
    | .error e => .error e
    | .ok key1 =>
      match getMinKeyFromDoc parts cmp doc2 with
      | .error e => .error e
      | .ok key2 => compareKeys parts cmp key1 key2

/-- The `_id` property of a document (`none` = JavaScript `undefined`). -/
def idOf : Val → Option Val
  | .vobj fs => getField fs "_id"
  | _ => none

/-- The distances map passed in `getComparator`'s options: the
`Map`-style interface the source uses (`has` / `get`), keyed by the raw
`_id` value (`none` = `undefined`, which no real map contains). -/
structure DistMap where
  has : Option Val → Bool
  get : Option Val → Int

/-- The distance tie-break comparator `getComparator` appends: "Missing
distance" if either document's `_id` is absent from the map, else the
difference `distances.get(a._id) - distances.get(b._id)`. -/
def distanceComparator (distances : DistMap) (a b : Val) :
    Except SortError Int :=
  if ¬ distances.has (idOf a) then .error .missingDistance
  else if ¬ distances.has (idOf b) then .error .missingDistance
  else .ok (distances.get (idOf a) - distances.get (idOf b))

/-- The `getComparator(options)` method: the base comparator alone without
distances, else the composition of the base comparator and the distance
comparator. -/
def getComparator (parts : List SpecPart) (cmp : Val → Val → Int)
    (options : Option DistMap) : Val → Val → Except SortError Int :=
  match options with
  | none => getBaseComparator parts cmp
  | some distances =>
    composeComparatorsM [getBaseComparator parts cmp, distanceComparator distances]

/-- The `_getPaths` method: the ordered list of the compiled spec's paths. -/
def getPaths (parts : List SpecPart) : List String :=
  parts.map SpecPart.path

/-! ## Statement-side helpers and concrete instances -/

/-- The first non-zero entry of a list of comparison results, `0` if all
are zero — the specification's description of comparator composition. -/
def firstNonZero : List Int → Int
  | [] => 0
  | x :: xs => if x = 0 then firstNonZero xs else x

/-- A spec item whose path position holds a string: a bare path string,
or a pair/sequence headed by a string. -/
def stringHeaded : SpecItem → Bool
  | .str _ => true
  | .arrI (.astr _ :: _) => true
  | _ => false

/-- The path named by a string-headed spec item. -/
def itemPath : SpecItem → String
  | .str s => s
  | .arrI (.astr s :: _) => s
  | _ => ""

/-- The path keys of a list of array-indexed branches. -/
def pathsOf (bs : List Branch) : List String :=
  bs.map fun b => pathFromIndices (b.arrayIndices.getD [])

/-- The `{path -> value}` record entries a list of array-indexed branches
contributes. -/
def entriesOf (bs : List Branch) : List (String × Val) :=
  bs.map fun b => (pathFromIndices (b.arrayIndices.getD []), b.value)

/-- The specification's multikey example document
`{a: [{x: 0, y: 5}, {x: 1, y: 3}]}`. -/
def docC1 : Val :=
  .vobj [("a", .varr [.vobj [("x", .vnum 0), ("y", .vnum 5)],
                      .vobj [("x", .vnum 1), ("y", .vnum 3)]])]

/-- The compiled form of the multikey example spec `{'a.x': 1, 'a.y': 1}`. -/
def partsC1 : List SpecPart := [⟨"a.x", true⟩, ⟨"a.y", true⟩]

/-- A document whose `a` and `b` arrays do not align one-to-one:
`{a: [1, 2], b: [1, 2, 3]}`. -/
def docC7 : Val :=
  .vobj [("a", .varr [.vnum 1, .vnum 2]),
         ("b", .varr [.vnum 1, .vnum 2, .vnum 3])]

/-- The compiled form of the parallel-array example spec `{a: 1, b: 1}`. -/
def partsC7 : List SpecPart := [⟨"a", true⟩, ⟨"b", true⟩]

/-- The compiled form all three equivalent example spec shapes produce:
`a` ascending then `b` descending. -/
def psAB : List SpecPart := [⟨"a", true⟩, ⟨"b", false⟩]

/-- A two-entry distance map: `"x" ↦ 0`, `"y" ↦ 1`. -/
def dmXY : DistMap :=
  ⟨fun i => match i with
    | some (.vstr "x") => true
    | some (.vstr "y") => true
    | _ => false,
   fun i => match i with
    | some (.vstr "x") => 0
    | _ => 1⟩

/-- The empty distance map. -/
def dmEmpty : DistMap := ⟨fun _ => false, fun _ => 0⟩

/-- The document `{_id: "x"}`. -/
def docIdX : Val := .vobj [("_id", .vstr "x")]

/-- The document `{_id: "y"}`. -/
def docIdY : Val := .vobj [("_id", .vstr "y")]

/-! ## General lemmas -/

theorem composeComparators_eq_firstNonZero {α : Type}
    (cs : List (α → α → Int)) (a b : α) :
    composeComparators cs a b = firstNonZero (cs.map fun c => c a b) := by
  induction cs with
  | nil => rfl
  | cons c rest ih =>
    simp only [composeComparators, firstNonZero, List.map]
    by_cases h : c a b = 0
    · simp [h, ih]
    · simp [h]

theorem mapE_length {α β : Type} (f : α → Except SortError β) :
    ∀ (l : List α) (out : List β), mapE f l = .ok out → out.length = l.length := by
  intro l
  induction l with
  | nil => intro out h; simp only [mapE] at h; cases h; rfl
  | cons x xs ih =>
    intro out h
    simp only [mapE] at h
    cases hf : f x with
    | error e => rw [hf] at h; cases h
    | ok y =>
      rw [hf] at h
      cases hr : mapE f xs with
      | error e => rw [hr] at h; cases h
      | ok ys =>
        rw [hr] at h
        cases h
        simp [ih ys hr]

theorem mapE_ok_of_mem {α β : Type} (f : α → Except SortError β) :
    ∀ (l : List α) (out : List β), mapE f l = .ok out →
      ∀ x ∈ l, ∃ y, f x = .ok y := by
  intro l
  induction l with
  | nil => intro out _ x hx; cases hx
  | cons z zs ih =>
    intro out h x hx
    simp only [mapE] at h
    cases hf : f z with
    | error e => rw [hf] at h; cases h
    | ok y =>
      rw [hf] at h
      cases hr : mapE f zs with
      | error e => rw [hr] at h; cases h
      | ok ys =>
        rcases List.mem_cons.mp hx with rfl | hx'
        · exact ⟨y, hf⟩
        · exact ih ys hr x hx'

theorem mapE_error_of_mem {α β : Type} (f : α → Except SortError β) :
    ∀ (l : List α) (e : SortError), mapE f l = .error e →
      ∃ x ∈ l, f x = .error e := by
  intro l
  induction l with
  | nil => intro e h; simp only [mapE] at h; cases h
  | cons z zs ih =>
    intro e h
    simp only [mapE] at h
    cases hf : f z with
    | error e' =>
      rw [hf] at h
      cases h
      exact ⟨z, List.mem_cons_self z zs, hf⟩
    | ok y =>
      rw [hf] at h
      cases hr : mapE f zs with
      | error e' =>
        rw [hr] at h
        cases h
        obtain ⟨x, hx, hfx⟩ := ih _ hr
        exact ⟨x, List.mem_cons_of_mem z hx, hfx⟩
      | ok ys => rw [hr] at h; cases h

/-! ## Claim theorems -/

/-- C8: if the compiled spec has zero parts, the base document comparator
returns zero for every pair of documents; key extraction is not invoked
(indeed invoking it on zero parts would always fail with the empty-spec
defect error, yet the comparator still returns zero). -/
theorem zero_parts_comparator_equal (cmp : Val → Val → Int) (d1 d2 : Val) :
    getBaseComparator [] cmp d1 d2 = .ok 0
    ∧ generateKeysFromDoc [] d1 = .error .emptySpec :=
  ⟨rfl, rfl⟩

/-- C10: constructing a sorter from `null` does not fail — `typeof null`
is `"object"` and `null` is not an `Array`, so the mapping branch
iterates zero keys, yielding a zero-part sorter whose `getComparator()`
without distances reports every document pair equal. -/
theorem null_spec_yields_empty_sorter (cmp : Val → Val → Int) (d1 d2 : Val) :
    mkSorter .null = .ok []
    ∧ getComparator [] cmp none d1 d2 = .ok 0 :=
  ⟨rfl, rfl⟩

/-- C1: `compareDocuments` (the base comparator on a non-empty spec)
compares two documents by their minimum key vectors, each chosen by the
full signed key comparator over the whole candidate set; for the
document `{a: [{x: 0, y: 5}, {x: 1, y: 3}]}` under spec
`{'a.x': 1, 'a.y': 1}` the candidate key vectors are exactly `[0, 5]`
and `[1, 3]`, and the minimum key vector is `[0, 5]`, never `[0, 3]`. -/
theorem compare_documents_by_min_key
    (parts : List SpecPart) (cmp : Val → Val → Int) (d1 d2 : Val)
    (h : parts ≠ []) :
    getBaseComparator parts cmp d1 d2 =
      (match getMinKeyFromDoc parts cmp d1 with
       | .error e => .error e
       | .ok key1 =>
         match getMinKeyFromDoc parts cmp d2 with
         | .error e => .error e
         | .ok key2 => compareKeys parts cmp key1 key2)
    ∧ mkSorter (.obj [("a.x", 1), ("a.y", 1)]) = .ok partsC1
    ∧ generateKeysFromDoc partsC1 docC1 =
        .ok [[.vnum 0, .vnum 5], [.vnum 1, .vnum 3]]
    ∧ getMinKeyFromDoc partsC1 cmpVal docC1 = .ok [.vnum 0, .vnum 5]
    ∧ getMinKeyFromDoc partsC1 cmpVal docC1 ≠ .ok [.vnum 0, .vnum 3] := by
  refine ⟨?_, rfl, rfl, rfl, ?_⟩
  · cases parts with
    | nil => exact absurd rfl h
    | cons p ps => rfl
  · intro heq
    rw [show getMinKeyFromDoc partsC1 cmpVal docC1 = .ok [.vnum 0, .vnum 5] from rfl]
      at heq
    simp at heq

/-- Witness for C1 at the multikey example itself. -/
theorem compare_documents_by_min_key_witness :
    getBaseComparator partsC1 cmpVal docC1 docC1 =
      (match getMinKeyFromDoc partsC1 cmpVal docC1 with
       | .error e => .error e
       | .ok key1 =>
         match getMinKeyFromDoc partsC1 cmpVal docC1 with
         | .error e => .error e
         | .ok key2 => compareKeys partsC1 cmpVal key1 key2) :=
  (compare_documents_by_min_key partsC1 cmpVal docC1 docC1 (by simp [partsC1])).1

/-- C2: on key vectors whose lengths both equal the spec's part count,
the key comparator returns the first non-zero per-field result in spec
order — field `i` being the value comparator on `key1[i]` vs `key2[i]`,
negated when part `i` is descending — and zero when every field
compares zero; a length mismatch on either side fails with the
key-length error. -/
theorem compare_keys_signed_first_nonzero
    (parts : List SpecPart) (cmp : Val → Val → Int) (key1 key2 : List Val) :
    (key1.length = parts.length → key2.length = parts.length →
      compareKeys parts cmp key1 key2 =
        .ok (firstNonZero ((List.range parts.length).map fun i =>
          if (parts.getD i default).ascending
          then cmp (key1.getD i .vnull) (key2.getD i .vnull)
          else -(cmp (key1.getD i .vnull) (key2.getD i .vnull)))))
    ∧ (key1.length ≠ parts.length ∨ key2.length ≠ parts.length →
      compareKeys parts cmp key1 key2 = .error .keyLengthMismatch) := by
  constructor
  · intro h1 h2
    have hfield : ∀ i, keyFieldComparator parts cmp i key1 key2 =
        (if (parts.getD i default).ascending
         then cmp (key1.getD i .vnull) (key2.getD i .vnull)
         else -(cmp (key1.getD i .vnull) (key2.getD i .vnull))) := by
      intro i
      simp only [keyFieldComparator]
      cases hasc : (parts.getD i default).ascending <;> simp [hasc]
    simp only [compareKeys]
    rw [if_neg (fun hc => hc.elim (fun hx => hx h1) (fun hx => hx h2))]
    simp only [keyComparator, composeComparators_eq_firstNonZero, List.map_map,
      Function.comp_def, hfield]
  · intro h
    simp only [compareKeys]
    rw [if_pos h]

/-- Witness for C2: a matched-length comparison on the `a` ascending /
`b` descending spec, and a mismatched-length failure. -/
theorem compare_keys_signed_first_nonzero_witness :
    compareKeys psAB cmpVal [.vnum 1, .vnum 2] [.vnum 1, .vnum 5] =
      .ok (firstNonZero ((List.range psAB.length).map fun i =>
        if (psAB.getD i default).ascending
        then cmpVal (([Val.vnum 1, .vnum 2].getD i .vnull))
               (([Val.vnum 1, .vnum 5].getD i .vnull))
        else -(cmpVal (([Val.vnum 1, .vnum 2].getD i .vnull))
               (([Val.vnum 1, .vnum 5].getD i .vnull)))))
    ∧ compareKeys psAB cmpVal [] [.vnum 1] = .error .keyLengthMismatch :=
  ⟨(compare_keys_signed_first_nonzero psAB cmpVal
      [.vnum 1, .vnum 2] [.vnum 1, .vnum 5]).1 rfl rfl,
   (compare_keys_signed_first_nonzero psAB cmpVal [] [.vnum 1]).2
      (Or.inl (by simp [psAB]))⟩

/-- C3 counterexample: with distances `"x" ↦ 0`, `"y" ↦ 1` and a
zero-part base spec (a tie), the comparator on `{_id:"x"}`, `{_id:"y"}`
returns `-1` = `distance[docA.id] - distance[docB.id]`, whereas the
claim's formula `distance[docB.id] - distance[docA.id]` evaluates to
`1 ≠ -1`; moreover with a non-tying base spec and an empty distance
map the comparator succeeds instead of failing with the
missing-distance error, although both identifiers are absent. -/
theorem distance_tiebreak_sign_counterexample :
    getComparator [] cmpVal (some dmXY) docIdX docIdY = .ok (-1)
    ∧ dmXY.get (idOf docIdY) - dmXY.get (idOf docIdX) = 1
    ∧ ((-1 : Int) ≠ 1)
    ∧ getComparator [⟨"a", true⟩] cmpVal (some dmEmpty)
        (.vobj [("_id", .vstr "x"), ("a", .vnum 1)])
        (.vobj [("_id", .vstr "y"), ("a", .vnum 2)]) = .ok (-1)
    ∧ dmEmpty.has (idOf docIdX) = false
    ∧ dmEmpty.has (idOf docIdY) = false :=
  ⟨rfl, rfl, by decide, rfl, rfl, rfl⟩

/-- C3 (amended): with a distance map supplied, the returned comparator
first applies the base document comparator; whenever that yields zero it
orders the pair by the sign of `distance[docA.id] - distance[docB.id]`
(closer documents first), and in that tie case fails with the
missing-distance error if either document's identifier is absent from
the map; a non-zero or failing base result is returned unchanged. -/
theorem distance_tiebreak_closer_first
    (parts : List SpecPart) (cmp : Val → Val → Int) (dm : DistMap) (a b : Val) :
    (getBaseComparator parts cmp a b = .ok 0 →
      (dm.has (idOf a) = true → dm.has (idOf b) = true →
        getComparator parts cmp (some dm) a b =
          .ok (dm.get (idOf a) - dm.get (idOf b)))
      ∧ ((dm.has (idOf a) = false ∨ dm.has (idOf b) = false) →
        getComparator parts cmp (some dm) a b = .error .missingDistance))
    ∧ (∀ c : Int, c ≠ 0 → getBaseComparator parts cmp a b = .ok c →
        getComparator parts cmp (some dm) a b = .ok c)
    ∧ (∀ e, getBaseComparator parts cmp a b = .error e →
        getComparator parts cmp (some dm) a b = .error e) := by
  refine ⟨fun h0 => ⟨fun ha hb => ?_, fun hab => ?_⟩,
    fun c hc h0 => ?_, fun e he => ?_⟩
  · simp only [getComparator, composeComparatorsM, h0]
    simp only [distanceComparator, ha, hb]
    by_cases hd : dm.get (idOf a) - dm.get (idOf b) = 0 <;> simp [hd]
  · simp only [getComparator, composeComparatorsM, h0]
    rcases hab with ha | hb
    · simp [distanceComparator, ha]
    · by_cases ha : dm.has (idOf a) <;> simp [distanceComparator, ha, hb]
  · simp [getComparator, composeComparatorsM, h0, hc]
  · simp [getComparator, composeComparatorsM, he]

/-- Witness for C3 at the zero-part base spec (every pair ties): a
present-distances tie broken closer-first, and an absent-identifier tie
failing with the missing-distance error. -/
theorem distance_tiebreak_closer_first_witness :
    getComparator [] cmpVal (some dmXY) docIdX docIdY =
      .ok (dmXY.get (idOf docIdX) - dmXY.get (idOf docIdY))
    ∧ getComparator [] cmpVal (some dmEmpty) docIdX docIdY =
      .error .missingDistance :=
  ⟨((distance_tiebreak_closer_first [] cmpVal dmXY docIdX docIdY).1 rfl).1 rfl rfl,
   ((distance_tiebreak_closer_first [] cmpVal dmEmpty docIdX docIdY).1 rfl).2
     (Or.inl rfl)⟩

theorem addSpecPart_astr_error (s : String) (asc : Bool) (e : SortError)
    (h : addSpecPart (some (.astr s)) asc = .error e) : e = .invalidSpec := by
  simp only [addSpecPart] at h
  split_ifs at h <;> cases h <;> rfl

theorem addSpecPart_astr_ok (s : String) (asc : Bool) (part : SpecPart)
    (h : addSpecPart (some (.astr s)) asc = .ok part) :
    s ≠ "" ∧ startsWithDollar s = false ∧ part = ⟨s, asc⟩ := by
  simp only [addSpecPart] at h
  split_ifs at h with h1 h2
  cases h
  simp only [Bool.not_eq_true] at h2
  exact ⟨h1, h2, rfl⟩

theorem compileItem_stringHeaded_error (it : SpecItem) (e : SortError)
    (hs : stringHeaded it = true) (h : compileItem it = .error e) :
    e = .invalidSpec := by
  cases it with
  | str s => exact addSpecPart_astr_error _ _ _ h
  | arrI elems =>
    cases elems with
    | nil => cases hs
    | cons hd tl =>
      cases hd with
      | astr s => exact addSpecPart_astr_error _ _ _ h
      | anum n => cases hs
      | anull => cases hs
  | num n => cases hs
  | nul => cases hs

theorem compileItem_stringHeaded_ok (it : SpecItem) (part : SpecPart)
    (hs : stringHeaded it = true) (h : compileItem it = .ok part) :
    itemPath it ≠ "" ∧ startsWithDollar (itemPath it) = false := by
  cases it with
  | str s =>
    obtain ⟨h1, h2, _⟩ := addSpecPart_astr_ok _ _ _ h
    exact ⟨h1, h2⟩
  | arrI elems =>
    cases elems with
    | nil => cases hs
    | cons hd tl =>
      cases hd with
      | astr s =>
        obtain ⟨h1, h2, _⟩ := addSpecPart_astr_ok _ _ _ h
        exact ⟨h1, h2⟩
      | anum n => cases hs
      | anull => cases hs
  | num n => cases hs
  | nul => cases hs

/-- C4 counterexample: a `null` specification — which is none of the
three accepted shapes — does not abort construction: `typeof null` is
`"object"`, so the mapping branch iterates zero keys and a working
zero-part sorter is produced. -/
theorem spec_shape_rejection_counterexample :
    mkSorter .null = .ok []
    ∧ mkSorter .null ≠ .error .invalidSpec
    ∧ getComparator [] cmpVal none docIdX docIdY = .ok 0 := by
  refine ⟨rfl, ?_, rfl⟩
  intro h
  rw [show mkSorter .null = Except.ok [] from rfl] at h
  cases h

/-- C4 (amended): compiling fails with the invalid-spec error whenever
any field path is empty, whenever any field path begins with the
reserved operator marker `$` (stated for sequence items whose path
position holds a string, the shapes the compiler accepts), and whenever
the specification's runtime type is neither array nor `"object"`; a
`null` specification, however, also has `typeof` `"object"` and is
accepted as a zero-entry mapping, producing a sorter with no parts
rather than aborting. -/
theorem spec_shape_rejection
    (entries : List (String × Int)) (items : List SpecItem) :
    mkSorter .prim = .error .invalidSpec
    ∧ mkSorter .null = .ok []
    ∧ (∀ p w, (p, w) ∈ entries → (p = "" ∨ startsWithDollar p = true) →
        mkSorter (.obj entries) = .error .invalidSpec)
    ∧ ((∀ it ∈ items, stringHeaded it = true) →
       (∃ it ∈ items, itemPath it = "" ∨ startsWithDollar (itemPath it) = true) →
        mkSorter (.arr items) = .error .invalidSpec) := by
  refine ⟨rfl, rfl, fun p w hmem hbad => ?_, fun hall ⟨it, hit, hbad⟩ => ?_⟩
  · cases hres : mkSorter (.obj entries) with
    | error e =>
      obtain ⟨x, _, hfx⟩ := mapE_error_of_mem _ entries e hres
      rw [addSpecPart_astr_error _ _ _ hfx]
    | ok ps =>
      exfalso
      obtain ⟨y, hy⟩ := mapE_ok_of_mem _ entries ps hres (p, w) hmem
      obtain ⟨h1, h2, _⟩ := addSpecPart_astr_ok _ _ _ hy
      rcases hbad with hb | hb
      · exact h1 hb
      · rw [h2] at hb; cases hb
  · cases hres : mkSorter (.arr items) with
    | error e =>
      obtain ⟨x, hx, hfx⟩ := mapE_error_of_mem _ items e hres
      rw [compileItem_stringHeaded_error _ _ (hall x hx) hfx]
    | ok ps =>
      exfalso
      obtain ⟨y, hy⟩ := mapE_ok_of_mem _ items ps hres it hit
      obtain ⟨h1, h2⟩ := compileItem_stringHeaded_ok _ _ (hall it hit) hy
      rcases hbad with hb | hb
      · exact h1 hb
      · rw [h2] at hb; cases hb

/-- Witness for C4: `{"$gt": 1}` and `[""]` are rejected with the
invalid-spec error. -/
theorem spec_shape_rejection_witness :
    mkSorter (.obj [("$gt", 1)]) = .error .invalidSpec
    ∧ mkSorter (.arr [.str ""]) = .error .invalidSpec :=
  ⟨(spec_shape_rejection [("$gt", 1)] []).2.2.1 "$gt" 1 (by simp)
      (Or.inr rfl),
   (spec_shape_rejection [] [.str ""]).2.2.2 (by decide)
      ⟨.str "", by simp, Or.inl rfl⟩⟩

/-- C5: the three accepted spec shapes compile to equivalent comparators
— `{"a": 1, "b": -1}`, `[["a","asc"], ["b","desc"]]` and
`["a", ["b","desc"]]` all compile to `a` ascending then `b` descending,
so their comparators agree on every document pair and option set; in
general a mapping entry with non-negative weight compiles ascending and
a negative weight descending, a bare path string compiles ascending, and
a pair compiles descending exactly when its direction is the literal
`"desc"`. -/
theorem spec_shape_equivalence :
    mkSorter (.obj [("a", 1), ("b", -1)]) = .ok psAB
    ∧ mkSorter (.arr [.arrI [.astr "a", .astr "asc"],
                      .arrI [.astr "b", .astr "desc"]]) = .ok psAB
    ∧ mkSorter (.arr [.str "a", .arrI [.astr "b", .astr "desc"]]) = .ok psAB
    ∧ (∀ ps1 ps2 ps3,
        mkSorter (.obj [("a", 1), ("b", -1)]) = .ok ps1 →
        mkSorter (.arr [.arrI [.astr "a", .astr "asc"],
                        .arrI [.astr "b", .astr "desc"]]) = .ok ps2 →
        mkSorter (.arr [.str "a", .arrI [.astr "b", .astr "desc"]]) = .ok ps3 →
        ∀ (cmp : Val → Val → Int) (opts : Option DistMap) (d1 d2 : Val),
          getComparator ps1 cmp opts d1 d2 = getComparator ps2 cmp opts d1 d2
          ∧ getComparator ps2 cmp opts d1 d2 = getComparator ps3 cmp opts d1 d2)
    ∧ (∀ (s : String) (w : Int), s ≠ "" → startsWithDollar s = false →
        mkSorter (.obj [(s, w)]) = .ok [⟨s, decide (w ≥ 0)⟩])
    ∧ (∀ (s dir : String), s ≠ "" → startsWithDollar s = false →
        dir ≠ "desc" →
        compileItem (.arrI [.astr s, .astr dir]) = .ok ⟨s, true⟩)
    ∧ (∀ (s : String), s ≠ "" → startsWithDollar s = false →
        compileItem (.str s) = .ok ⟨s, true⟩
        ∧ compileItem (.arrI [.astr s, .astr "desc"]) = .ok ⟨s, false⟩) := by
  refine ⟨rfl, rfl, rfl, ?_, ?_, ?_, ?_⟩
  · intro ps1 ps2 ps3 h1 h2 h3 cmp opts d1 d2
    rw [show mkSorter (.obj [("a", 1), ("b", -1)]) = Except.ok psAB from rfl] at h1
    rw [show mkSorter (.arr [.arrI [.astr "a", .astr "asc"],
          .arrI [.astr "b", .astr "desc"]]) = Except.ok psAB from rfl] at h2
    rw [show mkSorter (.arr [.str "a", .arrI [.astr "b", .astr "desc"]]) =
          Except.ok psAB from rfl] at h3
    cases h1
    cases h2
    cases h3
    exact ⟨rfl, rfl⟩
  · intro s w hs hd
    simp [mkSorter, mapE, addSpecPart, hs, hd]
  · intro s dir hs hd hdir
    simp [compileItem, addSpecPart, hs, hd, hdir]
  · intro s hs hd
    constructor
    · simp [compileItem, addSpecPart, hs, hd]
    · simp [compileItem, addSpecPart, hs, hd]

/-- Witness for C5: the three example shapes' comparators agree on a
concrete document pair, and a single-entry mapping with weight `2`
compiles to an ascending part. -/
theorem spec_shape_equivalence_witness :
    (getComparator psAB cmpVal none docIdX docIdY =
       getComparator psAB cmpVal none docIdX docIdY
     ∧ getComparator psAB cmpVal none docIdX docIdY =
       getComparator psAB cmpVal none docIdX docIdY)
    ∧ mkSorter (.obj [("c", 2)]) = .ok [⟨"c", decide ((2 : Int) ≥ 0)⟩]
    ∧ compileItem (.arrI [.astr "c", .astr "asc"]) = .ok ⟨"c", true⟩ :=
  ⟨spec_shape_equivalence.2.2.2.1 psAB psAB psAB rfl rfl rfl cmpVal none
     docIdX docIdY,
   spec_shape_equivalence.2.2.2.2.1 "c" 2 (by simp) rfl,
   spec_shape_equivalence.2.2.2.2.2.1 "c" "asc" (by simp) rfl (by simp)⟩

/-- C6: when a part's path lookup yields no branches in a document, the
key extractor substitutes the single synthetic branch
`{value: null, no array indices}`; consequently, under a one-part spec,
two documents that both lack the sorted field produce the key vector
`[null]` and compare equal. -/
theorem missing_field_null_fallback
    (p : SpecPart) (doc d1 d2 : Val)
    (h : lookupBranches doc p.path = [])
    (h1 : lookupBranches d1 p.path = [])
    (h2 : lookupBranches d2 p.path = []) :
    branchesForPart doc p = [⟨.vnull, none⟩]
    ∧ generateKeysFromDoc [p] d1 = .ok [[.vnull]]
    ∧ getBaseComparator [p] cmpVal d1 d2 = .ok 0 := by
  have gen : ∀ d : Val, lookupBranches d p.path = [] →
      generateKeysFromDoc [p] d = .ok [[.vnull]] := by
    intro d hd
    simp [generateKeysFromDoc, processParts, processField, branchesForPart, hd,
      processBranches, mapE, lookupKey]
  refine ⟨by simp [branchesForPart, h], gen d1 h1, ?_⟩
  simp [getBaseComparator, getMinKeyFromDoc, gen d1 h1, gen d2 h2, findMinKey,
    compareKeys, keyComparator, composeComparators, keyFieldComparator, cmpVal]

/-- Witness for C6: two documents without the sorted field `a` compare
equal under spec `{a: 1}`. -/
theorem missing_field_null_fallback_witness :
    branchesForPart (.vobj []) ⟨"a", true⟩ = [⟨.vnull, none⟩]
    ∧ generateKeysFromDoc [⟨"a", true⟩] (.vobj []) = .ok [[.vnull]]
    ∧ getBaseComparator [⟨"a", true⟩] cmpVal (.vobj [])
        (.vobj [("b", .vnum 1)]) = .ok 0 :=
  missing_field_null_fallback ⟨"a", true⟩ (.vobj []) (.vobj [])
    (.vobj [("b", .vnum 1)]) rfl rfl rfl

theorem branchesForPart_ne_nil (doc : Val) (part : SpecPart) :
    branchesForPart doc part ≠ [] := by
  simp only [branchesForPart]
  split
  · simp
  · next hbs =>
    intro hn
    rw [hn] at hbs
    simp at hbs

theorem processBranches_length (kp : Option (List String)) (n : Nat) :
    ∀ (bs : List Branch) (m : List (String × Val)) (u : Bool)
      (r : List (String × Val) × Bool),
      processBranches kp n bs m u = .ok r → r.1.length = m.length + bs.length := by
  intro bs
  induction bs with
  | nil =>
    intro m u r h
    simp only [processBranches] at h
    cases h
    simp
  | cons b rest ih =>
    intro m u r h
    simp only [processBranches] at h
    cases hai : b.arrayIndices with
    | none =>
      simp only [hai] at h
      split_ifs at h
      have := ih _ _ _ h
      simp only [List.length_append, List.length_cons, List.length_nil] at this ⊢
      omega
    | some idxs =>
      simp only [hai] at h
      split_ifs at h
      cases kp with
      | some ks =>
        simp only [] at h
        split_ifs at h
        have := ih _ _ _ h
        simp only [List.length_append, List.length_cons, List.length_nil] at this ⊢
        omega
      | none =>
        simp only [] at h
        have := ih _ _ _ h
        simp only [List.length_append, List.length_cons, List.length_nil] at this ⊢
        omega

theorem processField_knownPaths_ne_nil
    (doc : Val) (part : SpecPart) (acc acc' : GenAcc)
    (h : processField doc acc part = .ok acc')
    (hinv : ∀ ks, acc.knownPaths = some ks → ks ≠ []) :
    ∀ ks, acc'.knownPaths = some ks → ks ≠ [] := by
  simp only [processField] at h
  cases hpb : processBranches acc.knownPaths (branchesForPart doc part).length
      (branchesForPart doc part) [] false with
  | error e => simp only [hpb] at h; cases h
  | ok r =>
    simp only [hpb] at h
    cases hkp : acc.knownPaths with
    | some ks0 =>
      simp only [hkp] at h
      split_ifs at h
      cases h
      intro ks hks
      injection hks with he
      subst he
      exact hinv _ hkp
    | none =>
      simp only [hkp] at h
      split_ifs at h with hr
      · cases h
        intro ks hks
        injection hks with he
        subst he
        have hlen := processBranches_length _ _ _ _ _ _ hpb
        simp only [List.length_nil, Nat.zero_add] at hlen
        intro hmap
        have hr1 : r.1 = [] := by
          cases hm : r.1 with
          | nil => rfl
          | cons a l => rw [hm] at hmap; cases hmap
        rw [hr1] at hlen
        exact branchesForPart_ne_nil doc part (List.length_eq_zero.mp hlen.symm)
      · cases h
        intro ks hks
        cases hks

theorem processParts_knownPaths_ne_nil (doc : Val) :
    ∀ (parts : List SpecPart) (acc acc' : GenAcc),
      processParts doc parts acc = .ok acc' →
      (∀ ks, acc.knownPaths = some ks → ks ≠ []) →
      ∀ ks, acc'.knownPaths = some ks → ks ≠ [] := by
  intro parts
  induction parts with
  | nil =>
    intro acc acc' h hinv
    simp only [processParts] at h
    cases h
    exact hinv
  | cons p rest ih =>
    intro acc acc' h hinv
    simp only [processParts] at h
    cases hpf : processField doc acc p with
    | error e => simp only [hpf] at h; cases h
    | ok acc2 =>
      simp only [hpf] at h
      exact ih acc2 acc' h (processField_knownPaths_ne_nil doc p acc acc2 hpf hinv)

theorem compareKeys_error_eq (parts : List SpecPart) (cmp : Val → Val → Int)
    (k1 k2 : List Val) (e : SortError)
    (h : compareKeys parts cmp k1 k2 = .error e) : e = .keyLengthMismatch := by
  simp only [compareKeys] at h
  split_ifs at h
  cases h
  rfl

theorem findMinKey_error_eq (parts : List SpecPart) (cmp : Val → Val → Int) :
    ∀ (l : List (List Val)) (acc : Option (List Val)) (e : SortError),
      findMinKey parts cmp l acc = .error e → e = .keyLengthMismatch := by
  intro l
  induction l with
  | nil =>
    intro acc e h
    simp only [findMinKey] at h
    cases h
  | cons key rest ih =>
    intro acc e h
    simp only [findMinKey] at h
    cases acc with
    | none => exact ih _ _ h
    | some minKey =>
      simp only [] at h
      cases hck : compareKeys parts cmp key minKey with
      | error e2 =>
        simp only [hck] at h
        cases h
        exact compareKeys_error_eq _ _ _ _ _ hck
      | ok c =>
        simp only [hck] at h
        exact ih _ _ h

theorem findMinKey_ok_isSome (parts : List SpecPart) (cmp : Val → Val → Int) :
    ∀ (l : List (List Val)) (acc : Option (List Val)) (r : Option (List Val)),
      findMinKey parts cmp l acc = .ok r → (acc.isSome ∨ l ≠ []) → r.isSome := by
  intro l
  induction l with
  | nil =>
    intro acc r h hne
    simp only [findMinKey] at h
    cases h
    rcases hne with hs | hl
    · exact hs
    · exact absurd rfl hl
  | cons key rest ih =>
    intro acc r h hne
    simp only [findMinKey] at h
    cases acc with
    | none => exact ih _ _ h (Or.inl rfl)
    | some minKey =>
      simp only [] at h
      cases hck : compareKeys parts cmp key minKey with
      | error e => simp only [hck] at h; cases h
      | ok c =>
        simp only [hck] at h
        exact ih _ _ h (Or.inl rfl)

/-- C9: for a non-empty compiled spec, whenever key extraction succeeds
it yields at least one candidate key vector (the sole unindexed key, or
one per known path key), so the no-keys-found error branch of
minimum-key computation is unreachable. -/
theorem key_extraction_nonempty
    (parts : List SpecPart) (cmp : Val → Val → Int) (doc : Val)
    (ks : List (List Val))
    (hp : parts ≠ [])
    (hgen : generateKeysFromDoc parts doc = .ok ks) :
    ks ≠ [] ∧ getMinKeyFromDoc parts cmp doc ≠ .error .noKeysFound := by
  have hne : ks ≠ [] := by
    simp only [generateKeysFromDoc] at hgen
    rw [if_neg (by simpa using hp)] at hgen
    cases hpp : processParts doc parts ⟨[], none⟩ with
    | error e => simp only [hpp] at hgen; cases hgen
    | ok acc =>
      simp only [hpp] at hgen
      have hinv := processParts_knownPaths_ne_nil doc parts ⟨[], none⟩ acc hpp
        (fun ks0 hks0 => by cases hks0)
      cases hkp : acc.knownPaths with
      | none =>
        simp only [hkp] at hgen
        cases hmE : mapE (fun m =>
            match lookupKey m "" with
            | some v => Except.ok v
            | none => Except.error SortError.noValueInSoleKey) acc.values with
        | error e => simp only [hmE] at hgen; cases hgen
        | ok key =>
          simp only [hmE] at hgen
          cases hgen
          simp
      | some kps =>
        simp only [hkp] at hgen
        have hlen := mapE_length _ _ _ hgen
        have hkne := hinv kps hkp
        intro hksnil
        rw [hksnil] at hlen
        exact hkne (List.length_eq_zero.mp hlen.symm)
  refine ⟨hne, ?_⟩
  simp only [getMinKeyFromDoc, hgen]
  cases hfm : findMinKey parts cmp ks none with
  | error e =>
    have : e = .keyLengthMismatch := findMinKey_error_eq _ _ _ _ _ hfm
    subst this
    intro hcontra
    cases hcontra
  | ok r =>
    cases r with
    | none =>
      have := findMinKey_ok_isSome parts cmp ks none none hfm (Or.inr hne)
      cases this
    | some minKey =>
      intro hcontra
      cases hcontra

/-- Witness for C9 at the multikey example: two candidate vectors are
produced and the minimum-key computation does not hit the no-keys-found
branch. -/
theorem key_extraction_nonempty_witness :
    ([[Val.vnum 0, .vnum 5], [.vnum 1, .vnum 3]] : List (List Val)) ≠ []
    ∧ getMinKeyFromDoc partsC1 cmpVal docC1 ≠ .error .noKeysFound :=
  key_extraction_nonempty partsC1 cmpVal docC1
    [[.vnum 0, .vnum 5], [.vnum 1, .vnum 3]] (by simp [partsC1]) rfl

theorem pathFromIndices_ne_empty (idxs : List Nat) : pathFromIndices idxs ≠ "" := by
  intro h
  have h2 := congrArg String.length h
  rw [pathFromIndices] at h2
  rw [String.length_append] at h2
  have hc : (",".length) = 1 := rfl
  have he : ("".length) = 0 := rfl
  omega

theorem hasKey_iff_mem_map (m : List (String × Val)) (k : String) :
    hasKey m k = true ↔ k ∈ m.map Prod.fst := by
  simp only [hasKey, List.any_eq_true, decide_eq_true_eq, List.mem_map]

theorem processBranches_all_indexed_ok (kp : List String) (n : Nat) :
    ∀ (bs : List Branch) (m : List (String × Val)) (u : Bool),
      (∀ b ∈ bs, b.arrayIndices.isSome) →
      (m.map Prod.fst ++ pathsOf bs).Nodup →
      (∀ p ∈ pathsOf bs, p ∈ kp) →
      ∃ u', processBranches (some kp) n bs m u = .ok (m ++ entriesOf bs, u') := by
  intro bs
  induction bs with
  | nil =>
    intro m u _ _ _
    exact ⟨u, by simp [processBranches, entriesOf]⟩
  | cons b rest ih =>
    intro m u hall hnd hsub
    obtain ⟨idxs, hai⟩ := Option.isSome_iff_exists.mp
      (hall b (List.mem_cons_self b rest))
    have hpaths : pathsOf (b :: rest) =
        pathFromIndices idxs :: pathsOf rest := by
      simp [pathsOf, hai]
    rw [hpaths] at hnd hsub
    have hnm : pathFromIndices idxs ∉ m.map Prod.fst := by
      intro hmem
      have := (List.nodup_append.mp hnd).2.2
      exact this hmem (List.mem_cons_self _ _)
    have hnk : hasKey m (pathFromIndices idxs) = false := by
      rw [← Bool.not_eq_true, hasKey_iff_mem_map]
      exact hnm
    have hcont : kp.contains (pathFromIndices idxs) = true :=
      List.elem_iff.mpr (hsub _ (List.mem_cons_self _ _))
    simp only [processBranches, hai, hnk, hcont]
    simp only [if_true]
    have hnd' : ((m ++ [(pathFromIndices idxs, b.value)]).map Prod.fst ++
        pathsOf rest).Nodup := by
      rw [List.map_append]
      have : m.map Prod.fst ++ [(pathFromIndices idxs, b.value)].map Prod.fst ++
          pathsOf rest =
          m.map Prod.fst ++ (pathFromIndices idxs :: pathsOf rest) := by
        simp
      rw [this]
      exact hnd
    obtain ⟨u', hu'⟩ := ih (m ++ [(pathFromIndices idxs, b.value)]) true
      (fun b' hb' => hall b' (List.mem_cons_of_mem b hb'))
      hnd'
      (fun p hp => hsub p (List.mem_cons_of_mem _ hp))
    refine ⟨u', ?_⟩
    rw [hu']
    have : entriesOf (b :: rest) =
        (pathFromIndices idxs, b.value) :: entriesOf rest := by
      simp [entriesOf, hai]
    rw [this]
    simp

theorem processBranches_all_indexed_error (kp : List String) (n : Nat) :
    ∀ (bs : List Branch) (m : List (String × Val)) (u : Bool),
      (∀ b ∈ bs, b.arrayIndices.isSome) →
      (m.map Prod.fst ++ pathsOf bs).Nodup →
      (∃ p ∈ pathsOf bs, p ∉ kp) →
      processBranches (some kp) n bs m u = .error .parallelArrayMismatch := by
  intro bs
  induction bs with
  | nil =>
    intro m u _ _ hex
    obtain ⟨p, hp, _⟩ := hex
    simp [pathsOf] at hp
  | cons b rest ih =>
    intro m u hall hnd hex
    obtain ⟨idxs, hai⟩ := Option.isSome_iff_exists.mp
      (hall b (List.mem_cons_self b rest))
    have hpaths : pathsOf (b :: rest) =
        pathFromIndices idxs :: pathsOf rest := by
      simp [pathsOf, hai]
    rw [hpaths] at hnd hex
    have hnm : pathFromIndices idxs ∉ m.map Prod.fst := by
      intro hmem
      have := (List.nodup_append.mp hnd).2.2
      exact this hmem (List.mem_cons_self _ _)
    have hnk : hasKey m (pathFromIndices idxs) = false := by
      rw [← Bool.not_eq_true, hasKey_iff_mem_map]
      exact hnm
    simp only [processBranches, hai, hnk]
    by_cases hc : kp.contains (pathFromIndices idxs) = true
    · rw [if_pos hc]
      have hnd' : ((m ++ [(pathFromIndices idxs, b.value)]).map Prod.fst ++
          pathsOf rest).Nodup := by
        rw [List.map_append]
        have : m.map Prod.fst ++ [(pathFromIndices idxs, b.value)].map Prod.fst ++
            pathsOf rest =
            m.map Prod.fst ++ (pathFromIndices idxs :: pathsOf rest) := by
          simp
        rw [this]
        exact hnd
      apply ih (m ++ [(pathFromIndices idxs, b.value)]) true
        (fun b' hb' => hall b' (List.mem_cons_of_mem b hb'))
        hnd'
      obtain ⟨p, hp, hpk⟩ := hex
      rcases List.mem_cons.mp hp with rfl | hp'
      · exact absurd (List.elem_iff.mp hc) hpk
      · exact ⟨p, hp', hpk⟩
    · rw [if_neg hc]
      rfl

/-- C7: once an earlier sort-spec part has established the set of known
path keys, a later part whose branches are all array-indexed (with
pairwise-distinct path keys, as branch processing itself enforces) and
whose path-key set differs from the established set makes extraction
fail with the parallel-array error; in particular spec `{a: 1, b: 1}`
against `{a: [1, 2], b: [1, 2, 3]}`, whose arrays do not align
one-to-one, fails with the parallel-array error. -/
theorem parallel_array_mismatch
    (doc : Val) (part : SpecPart) (vs : List (List (String × Val)))
    (kp : List String)
    (hkpnd : kp.Nodup)
    (hall : ∀ b ∈ branchesForPart doc part, b.arrayIndices.isSome)
    (hnd : (pathsOf (branchesForPart doc part)).Nodup)
    (hdiff : (pathsOf (branchesForPart doc part)).toFinset ≠ kp.toFinset) :
    processField doc ⟨vs, some kp⟩ part = .error .parallelArrayMismatch
    ∧ mkSorter (.obj [("a", 1), ("b", 1)]) = .ok partsC7
    ∧ generateKeysFromDoc partsC7 docC7 = .error .parallelArrayMismatch := by
  refine ⟨?_, rfl, rfl⟩
  by_cases hsub : ∀ p ∈ pathsOf (branchesForPart doc part), p ∈ kp
  · obtain ⟨u', hok⟩ := processBranches_all_indexed_ok kp
      (branchesForPart doc part).length (branchesForPart doc part) [] false
      hall (by simpa using hnd) hsub
    simp only [processField, hok]
    rw [List.nil_append]
    have hnoempty : ¬ hasKey (entriesOf (branchesForPart doc part)) "" = true := by
      rw [hasKey_iff_mem_map]
      intro hmem
      simp only [entriesOf, List.map_map, List.mem_map] at hmem
      obtain ⟨b, _, hb⟩ := hmem
      exact pathFromIndices_ne_empty _ hb
    have hsubF : (pathsOf (branchesForPart doc part)).toFinset ⊆ kp.toFinset := by
      intro p hp
      rw [List.mem_toFinset] at hp
      rw [List.mem_toFinset]
      exact hsub p hp
    have hcard : (pathsOf (branchesForPart doc part)).toFinset.card <
        kp.toFinset.card :=
      Finset.card_lt_card (lt_of_le_of_ne hsubF hdiff)
    have hlen1 : (pathsOf (branchesForPart doc part)).toFinset.card =
        (pathsOf (branchesForPart doc part)).length :=
      List.toFinset_card_of_nodup hnd
    have hlen2 : kp.toFinset.card = kp.length :=
      List.toFinset_card_of_nodup hkpnd
    have hplen : (pathsOf (branchesForPart doc part)).length =
        (entriesOf (branchesForPart doc part)).length := by
      simp [pathsOf, entriesOf]
    rw [if_pos ⟨hnoempty, by omega⟩]
  · push_neg at hsub
    have herr := processBranches_all_indexed_error kp
      (branchesForPart doc part).length (branchesForPart doc part) [] false
      hall (by simpa using hnd) hsub
    simp only [processField, herr]

/-- Witness for C7: the second field `b` of the parallel-array example,
processed after `a` has established path keys `{0, 1}`, fails with the
parallel-array error. -/
theorem parallel_array_mismatch_witness :
    processField docC7 ⟨[[("0,", .vnum 1), ("1,", .vnum 2)]],
        some ["0,", "1,"]⟩ ⟨"b", true⟩ = .error .parallelArrayMismatch
    ∧ mkSorter (.obj [("a", 1), ("b", 1)]) = .ok partsC7
    ∧ generateKeysFromDoc partsC7 docC7 = .error .parallelArrayMismatch :=
  parallel_array_mismatch docC7 ⟨"b", true⟩
    [[("0,", .vnum 1), ("1,", .vnum 2)]] ["0,", "1,"]
    (by decide) (by decide) (by decide) (by decide)

end Sorter
